import Mathlib

/-!
Verification of the inline expression evaluation engine of the Codex editor
(src/packages/renderer/src/components/Views/Editor/EditorView.tsx, the
current version of the file).

The TypeScript source is shallowly embedded: strings are Lean `String`s
(operated on through their character lists so every definition is
executable), the JavaScript `Map` and object dictionaries become association
lists, the module-level mutable `expressionCache` becomes an explicitly
threaded value, and the external collaborators (the DOM parser extracting
table structure, the KaTeX renderer, the mathjs evaluator and the JS
`Number` conversion) are parameters of the functions that call them, since
the specification treats them as opaque interfaces.
-/

namespace Codex

/-- Is `pat` a prefix of the second list?  Character-level helper used to
model the JS string predicates. -/
def startsList : List Char → List Char → Bool
  | [], _ => true
  | _ :: _, [] => false
  | p :: ps, c :: cs => p == c && startsList ps cs

/-- Does `pat` occur as a contiguous run inside the second list?  Models
`String.prototype.includes`. -/
def subOccurs (pat : List Char) : List Char → Bool
  | [] => pat.isEmpty
  | c :: rest => startsList pat (c :: rest) || subOccurs pat rest

/-- `expression.includes("table")` from the classifier. -/
def includesTable (e : String) : Bool := subOccurs "table".data e.data

/-- `s.startsWith(p)` on raw character lists. -/
def jsStartsWith (s p : String) : Bool := startsList p.data s.data

/-- `s.endsWith(p)` on raw character lists. -/
def jsEndsWith (s p : String) : Bool := startsList p.data.reverse s.data.reverse

/-- The code points trimmed by `String.prototype.trim` (the ASCII fragment;
JS also trims some Unicode spaces, which no claim involves). -/
def isWhite (c : Char) : Bool :=
  c == ' ' || c == '\t' || c == '\n' || c == '\r' || c == '\x0c' || c == '\x0b'

/-- `s.trim()`. -/
def jsTrim (s : String) : String :=
  String.mk (((s.data.dropWhile isWhite).reverse.dropWhile isWhite).reverse)

/-- `s.slice(2, -2)`: drop the first two and last two characters. -/
def jsSlice2 (s : String) : String :=
  String.mk (((s.data.drop 2).reverse.drop 2).reverse)

/-- `s.slice(1)`. -/
def jsDrop1 (s : String) : String := String.mk (s.data.drop 1)

/-- Dictionary read: JS `map.get(k)` / `obj[k]`, with `undefined` as `none`. -/
def jsGet {α : Type} : List (String × α) → String → Option α
  | [], _ => none
  | (k, v) :: rest, key => if key = k then some v else jsGet rest key

/-- JS `map.set(k, v)`: update the existing entry in place or append. -/
def jsSet {α : Type} : List (String × α) → String → α → List (String × α)
  | [], key, v => [(key, v)]
  | (k, w) :: rest, key, v =>
    if key = k then (k, v) :: rest else (k, w) :: jsSet rest key v

/-- `columnIndexToLetter`: `String.fromCharCode(65 + index)` (char codes are
taken modulo 2^16 by `fromCharCode`). -/
def columnIndexToLetter (index : Nat) : String :=
  String.mk [Char.ofNat ((65 + index) % 65536)]

/-- The coordinate `columnIndexToLetter(cellIndex) + (rowIndex + 1)` assigned
by `parseTables`. -/
def cellRef (rowIndex cellIndex : Nat) : String :=
  columnIndexToLetter cellIndex ++ toString (rowIndex + 1)

/-- The `cells.forEach((cell, cellIndex) => ...)` scan of one row: the
(coordinate, trimmed text) assignments in document order, starting at cell
index `c`. -/
def rowEntries (rowIndex : Nat) : Nat → List String → List (String × String)
  | _, [] => []
  | c, cell :: cells => (cellRef rowIndex c, jsTrim cell) :: rowEntries rowIndex (c + 1) cells

/-- The `rows.forEach((row, rowIndex) => ...)` scan: all assignments of one
table, starting at row index `r`. -/
def tableEntriesAux : Nat → List (List String) → List (String × String)
  | _, [] => []
  | r, row :: rows => rowEntries r 0 row ++ tableEntriesAux (r + 1) rows

/-- All cell assignments of one table, in scan order. -/
def tableEntries (rows : List (List String)) : List (String × String) :=
  tableEntriesAux 0 rows

/-- Reading a JS object built by a sequence of property assignments: the last
assignment to a key wins. -/
def lastAssign : List (String × String) → String → Option String
  | [], _ => none
  | (k, v) :: rest, key =>
    match lastAssign rest key with
    | some r => some r
    | none => if key = k then some v else none

/-- The per-table dictionary `tableData[tableName]` built by `parseTables`. -/
def indexTable (rows : List (List String)) : String → Option String :=
  lastAssign (tableEntries rows)

/-- The `tables.forEach((table, tableIndex) => ...)` loop naming the tables
`table1, table2, ...` in document order. -/
def nameTables : Nat → List (List (List String)) → List (String × (String → Option String))
  | _, [] => []
  | i, t :: ts => ("table" ++ toString (i + 1), indexTable t) :: nameTables (i + 1) ts

/-- `parseTables`: the DOM parsing (`DOMParser` / `querySelectorAll`) belongs
to the external hosting environment; its output is the structural list of
tables, each a list of rows, each a list of cell text contents, from which
the coordinate dictionary is built exactly as in the source. -/
def parseTables (docTables : List (List (List String))) : List (String × (String → Option String)) :=
  nameTables 0 docTables

/-- `cell.charCodeAt(0)`: the code point of the first character; `none`
models the NaN produced on an empty string. -/
def charCodeAt0 (s : String) : Option Int :=
  s.data.head?.map (fun c => (c.toNat : Int))

/-- The maximal run of leading decimal digits. -/
def leadingDigits : List Char → List Char
  | [] => []
  | c :: rest => if c.isDigit then c :: leadingDigits rest else []

/-- Numeric value of a digit run. -/
def digitsVal (l : List Char) : Nat :=
  l.foldl (fun n c => 10 * n + (c.toNat - 48)) 0

/-- `parseInt(s)` for the digit-string fragment that reaches `getRange`;
`none` models NaN when there is no leading digit. -/
def jsParseInt (s : String) : Option Int :=
  match leadingDigits s.data with
  | [] => none
  | ds => some (Int.ofNat (digitsVal ds))

/-- The index list visited by `for (let i = lo; i <= hi; i++)`. -/
def intRange (lo hi : Int) : List Int :=
  (List.range (hi + 1 - lo).toNat).map (fun i => lo + i)

/-- `String.fromCharCode(n)` (ToUint16 wrap). -/
def jsFromCharCode (n : Int) : Char :=
  Char.ofNat ((n % 65536).toNat)

/-- The cell key `String.fromCharCode(col + 65) + (row + 1)` rebuilt inside
the `getRange` loops. -/
def intCellRef (col row : Int) : String :=
  String.mk [jsFromCharCode (col + 65)] ++ toString (row + 1)

/-- The inner `for (let row = startRow; row <= endRow; row++)` loop of
`getRange`: pushes `Number(cellValue)` for defined cells passing the
`!isNaN(Number(cellValue))` guard.  The JS `Number` conversion together with
that guard is the opaque `parseNum`. -/
def collectRows {α : Type} (parseNum : String → Option α)
    (table : String → Option String) (col : Int) : List Int → List α
  | [] => []
  | row :: rows =>
    match (table (intCellRef col row)).bind parseNum with
    | some v => v :: collectRows parseNum table col rows
    | none => collectRows parseNum table col rows

/-- The outer `for (let col = startCol; col <= endCol; col++)` loop. -/
def collectCols {α : Type} (parseNum : String → Option α)
    (table : String → Option String) (rows : List Int) : List Int → List α
  | [] => []
  | col :: cols => collectRows parseNum table col rows ++ collectCols parseNum table rows cols

/-- `getRange(tableName, startCell, endCell, tableData)`.  A missing table
throws (modelled as `Except.error` carrying the thrown message).  A
coordinate whose first character or digit part is missing makes the JS loop
bounds NaN, so neither loop body runs and the empty list is returned. -/
def getRange {α : Type} (parseNum : String → Option α)
    (tableData : List (String × (String → Option String)))
    (tableName startCell endCell : String) : Except String (List α) :=
  match jsGet tableData tableName with
  | none => Except.error ("Table \"" ++ tableName ++ "\" not found.")
  | some table =>
    match charCodeAt0 startCell, charCodeAt0 endCell,
        jsParseInt (jsDrop1 startCell), jsParseInt (jsDrop1 endCell) with
    | some sc, some ec, some sr, some er =>
      Except.ok (collectCols parseNum table (intRange (sr - 1) (er - 1)) (intRange (sc - 65) (ec - 65)))
    | _, _, _, _ => Except.ok []

/-- The maximal digit prefix and the remainder. -/
def takeDigits : List Char → List Char × List Char
  | [] => ([], [])
  | c :: rest =>
    if c.isDigit then
      let p := takeDigits rest
      (c :: p.1, p.2)
    else ([], c :: rest)

/-- Try to match the regex `table\d+\[[A-Z]\d+:[A-Z]\d+\]` at the head of the
input; on success return the table name, both cells, and the input remaining
after the match. -/
def tryTableRef : List Char → Option (String × String × String × List Char)
  | 't' :: 'a' :: 'b' :: 'l' :: 'e' :: r1 =>
    let d1 := takeDigits r1
    if d1.1.isEmpty then none else
    match d1.2 with
    | '[' :: c1 :: r3 =>
      if c1.isUpper then
        let d2 := takeDigits r3
        if d2.1.isEmpty then none else
        match d2.2 with
        | ':' :: c2 :: r5 =>
          if c2.isUpper then
            let d3 := takeDigits r5
            if d3.1.isEmpty then none else
            match d3.2 with
            | ']' :: r7 =>
              some ("table" ++ String.mk d1.1, String.mk (c1 :: d2.1), String.mk (c2 :: d3.1), r7)
            | _ => none
          else none
        | _ => none
      else none
    | _ => none
  | _ => none

/-- One pass of `expression.replace(/table\d+\[[A-Z]\d+:[A-Z]\d+\]/g, ...)`,
rewriting every match to a quoted `getRange` call.  The fuel is the length of
the input at the wrapper's call; every step consumes at least one character,
so the zero-fuel fallback is never reached from `processTableExpression`. -/
def tableRefScanF : Nat → List Char → List Char
  | 0, l => l
  | _ + 1, [] => []
  | fuel + 1, c :: rest =>
    match tryTableRef (c :: rest) with
    | some (t, s, e, rest') =>
      ("getRange(\"" ++ t ++ "\", \"" ++ s ++ "\", \"" ++ e ++ "\")").data
        ++ tableRefScanF fuel rest'
    | none => c :: tableRefScanF fuel rest

/-- `processTableExpression(expression)`. -/
def processTableExpression (expression : String) : String :=
  String.mk (tableRefScanF expression.data.length expression.data)

/-- The inline error marker produced by the catch block of the replacer. -/
def errSpan (expression : String) : String :=
  "<span style=\"color: red;\">" ++ expression ++ "</span>"

/-- `expression.startsWith("$$") && expression.endsWith("$$")`. -/
def isLatexExpr (e : String) : Bool :=
  jsStartsWith e "$$" && jsEndsWith e "$$"

/-- `expression.slice(2, -2).trim()`. -/
def stripDollars (e : String) : String := jsTrim (jsSlice2 e)

/-- Result of evaluating one placeholder: its rendered output, the cache
afterwards, and how many times each underlying renderer was invoked. -/
structure EvalOut where
  output : String
  cache : List (String × String)
  katexCalls : Nat
  mathCalls : Nat
  deriving DecidableEq

/-- One placeholder through the replacer of `evaluateTableExpressions`:
cache lookup first, then the `try` block (LaTeX / table / plain
classification), with the `catch` producing the inline error span and — as
in the source — not storing anything.  `katex` is `katex.renderToString`
with `throwOnError: false` (error-tolerant, hence a total function); `me` is
the opaque mathjs pipeline (`math.evaluate` plus rounding plus
stringification), returning `Except.error` when the evaluation throws.  For
table expressions `me` runs with `getRange` bound to the cycle's table data,
so a missing table surfaces here as an error.  The two counters record
invocations of the underlying renderers. -/
def evaluateOne (katex : String → String) (me : String → Except String String)
    (cache : List (String × String)) (expression : String) : EvalOut :=
  match jsGet cache expression with
  | some v => ⟨v, cache, 0, 0⟩
  | none =>
    if isLatexExpr expression then
      let r := katex (stripDollars expression)
      ⟨r, jsSet cache expression r, 1, 0⟩
    else if includesTable expression then
      match me (processTableExpression expression) with
      | Except.ok r => ⟨r, jsSet cache expression r, 0, 1⟩
      | Except.error _ => ⟨errSpan expression, cache, 0, 1⟩
    else
      match me expression with
      | Except.ok r => ⟨r, jsSet cache expression r, 0, 1⟩
      | Except.error _ => ⟨errSpan expression, cache, 0, 1⟩

/-- The outcome of the `try` block of the replacer, before caching. -/
def tryResult (katex : String → String) (me : String → Except String String)
    (e : String) : Except String String :=
  if isLatexExpr e then Except.ok (katex (stripDollars e))
  else if includesTable e then me (processTableExpression e)
  else me e

/-- How many (katex, mathjs) invocations a cache miss on `e` costs. -/
def evalCalls (e : String) : Nat × Nat :=
  if isLatexExpr e then (1, 0) else (0, 1)

/-- Result of evaluating a sequence of placeholders. -/
structure BatchOut where
  outputs : List String
  cache : List (String × String)
  katexCalls : Nat
  mathCalls : Nat
  deriving DecidableEq

/-- Evaluate a sequence of placeholder texts left to right, threading the
cache — the document-order evaluation of the placeholders of a refresh
cycle, or of several cycles, since the cache is module-global. -/
def evalList (katex : String → String) (me : String → Except String String) :
    List (String × String) → List String → BatchOut
  | cache, [] => ⟨[], cache, 0, 0⟩
  | cache, e :: es =>
    let o := evaluateOne katex me cache e
    let b := evalList katex me o.cache es
    ⟨o.output :: b.outputs, b.cache, o.katexCalls + b.katexCalls, o.mathCalls + b.mathCalls⟩

/-- Split at the first closing brace: `some (before, after)` iff a `}`
occurs. -/
def splitAtBrace : List Char → Option (List Char × List Char)
  | [] => none
  | c :: rest =>
    if c = '}' then some ([], rest)
    else (splitAtBrace rest).map (fun p => (c :: p.1, p.2))

/-- Result of scanning a whole snapshot. -/
structure ScanOut where
  out : List Char
  cache : List (String × String)
  katexCalls : Nat
  mathCalls : Nat
  deriving DecidableEq

/-- The scan of `content.replace(/\{([^}]+)\}/g, replacer)`: find a `{`, take
the (non-empty) run of non-`}` characters up to the next `}`, feed it to
`evaluateOne` and splice the rendering in; a `{}` and a `{` with no later `}`
are not matches.  The fuel is the input length at the wrapper's call; every
step consumes at least one character, so the zero-fuel fallback is never
reached from `evaluateTableExpressions`. -/
def scanEvalF (katex : String → String) (me : String → Except String String) :
    Nat → List Char → List (String × String) → ScanOut
  | 0, l, cache => ⟨l, cache, 0, 0⟩
  | _ + 1, [], cache => ⟨[], cache, 0, 0⟩
  | fuel + 1, c :: rest, cache =>
    if c = '{' then
      match splitAtBrace rest with
      | some (inner, rest') =>
        if inner.isEmpty then
          let s := scanEvalF katex me fuel rest cache
          ⟨c :: s.out, s.cache, s.katexCalls, s.mathCalls⟩
        else
          let o := evaluateOne katex me cache (String.mk inner)
          let s := scanEvalF katex me fuel rest' o.cache
          ⟨o.output.data ++ s.out, s.cache, o.katexCalls + s.katexCalls, o.mathCalls + s.mathCalls⟩
      | none => ⟨c :: rest, cache, 0, 0⟩
    else
      let s := scanEvalF katex me fuel rest cache
      ⟨c :: s.out, s.cache, s.katexCalls, s.mathCalls⟩

/-- `evaluateTableExpressions(content, tableData)` with the cache explicit;
the table data is already folded into `me` (the mathjs scope is built with
`getRange` closed over the cycle's table data). -/
def evaluateTableExpressions (katex : String → String) (me : String → Except String String)
    (content : String) (cache : List (String × String)) : ScanOut :=
  scanEvalF katex me content.data.length content.data cache

/-- Does the snapshot contain a placeholder match (`{`, a non-empty gap of
non-`}` characters, `}`) anywhere? -/
def hasPlaceholder : List Char → Bool
  | [] => false
  | c :: rest =>
    if c = '{' then
      match splitAtBrace rest with
      | some (inner, _) => if inner.isEmpty then hasPlaceholder rest else true
      | none => false
    else hasPlaceholder rest

/-- The editing surface's observable state: the serialized snapshot and the
selection offsets. -/
structure EditorState where
  content : String
  selFrom : Nat
  selTo : Nat
  deriving DecidableEq

/-- The outcome of one refresh cycle: the editor state afterwards, the new
`previousContent`, the cache afterwards, whether `setContent` was called
(`replaced`), whether `setTextSelection` was called (`selectionRestored`),
and the rewritten snapshot when evaluation ran (`candidate`). -/
structure Cycle where
  state : EditorState
  previousContent : String
  cache : List (String × String)
  replaced : Bool
  selectionRestored : Bool
  candidate : Option String
  deriving DecidableEq

/-- One debounced `updateContent` cycle.  `parseDoc` is the external DOM
extraction of the table structure from the HTML snapshot, and `mkMe` builds
the cycle's mathjs pipeline from the cycle's table data. -/
def updateContent (parseDoc : String → List (List (List String)))
    (katex : String → String)
    (mkMe : List (String × (String → Option String)) → String → Except String String)
    (previousContent : String) (cache : List (String × String)) (st : EditorState) : Cycle :=
  let start := st.selFrom
  let stop := st.selTo
  let str := st.content
  if str.data.contains '}' then
    if str = previousContent then
      ⟨st, previousContent, cache, false, false, none⟩
    else
      let tableData := parseTables (parseDoc str)
      let me := mkMe tableData
      let scanned := evaluateTableExpressions katex me str cache
      let newContent := String.mk scanned.out
      if newContent = previousContent then
        ⟨⟨str, start, stop⟩, previousContent, scanned.cache, false, true, some newContent⟩
      else
        ⟨⟨newContent, start, stop⟩, newContent, scanned.cache, true, true, some newContent⟩
  else
    ⟨st, previousContent, cache, false, false, none⟩

/-- A concrete, executable instantiation of the opaque numeric conversion
(`Number` restricted to unsigned decimal integers), used only to exercise
the parametric theorems on explicit inputs. -/
def natParse (s : String) : Option Nat :=
  match s.data with
  | [] => none
  | l => if l.all Char.isDigit then some (digitsVal l) else none

/-! ### Helper lemmas -/

theorem jsGet_jsSet_self {α : Type} (m : List (String × α)) (k : String) (v : α) :
    jsGet (jsSet m k v) k = some v := by
  induction m with
  | nil => simp [jsGet, jsSet]
  | cons p rest ih =>
    obtain ⟨k', w⟩ := p
    by_cases h : k = k'
    · simp [jsGet, jsSet, h]
    · simp [jsGet, jsSet, h, ih]

theorem intRange_nil (lo hi : Int) (h : hi < lo) : intRange lo hi = [] := by
  unfold intRange
  have h0 : (hi + 1 - lo).toNat = 0 := by omega
  rw [h0]
  rfl

theorem collectCols_rows_nil {α : Type} (parseNum : String → Option α)
    (table : String → Option String) (cols : List Int) :
    collectCols parseNum table [] cols = [] := by
  induction cols with
  | nil => rfl
  | cons col cs ih => simp [collectCols, collectRows, ih]

theorem mem_rowEntries (r : Nat) (cells : List String) :
    ∀ (c0 c : Nat) (hc : c < cells.length),
    (cellRef r (c0 + c), jsTrim (cells.get ⟨c, hc⟩)) ∈ rowEntries r c0 cells := by
  induction cells with
  | nil => intro c0 c hc; simp at hc
  | cons x xs ih =>
    intro c0 c hc
    cases c with
    | zero => simp [rowEntries]
    | succ n =>
      have e : c0 + (n + 1) = (c0 + 1) + n := by omega
      rw [e]
      simp only [rowEntries]
      exact List.mem_cons_of_mem _ (ih (c0 + 1) n (Nat.lt_of_succ_lt_succ hc))

theorem mem_tableEntriesAux (rows : List (List String)) :
    ∀ (r0 r c : Nat) (hr : r < rows.length) (hc : c < (rows.get ⟨r, hr⟩).length),
    (cellRef (r0 + r) c, jsTrim ((rows.get ⟨r, hr⟩).get ⟨c, hc⟩)) ∈ tableEntriesAux r0 rows := by
  induction rows with
  | nil => intro r0 r c hr hc; simp at hr
  | cons row rows ih =>
    intro r0 r c hr hc
    cases r with
    | zero =>
      simp only [tableEntriesAux]
      apply List.mem_append_left
      have h := mem_rowEntries r0 row 0 c hc
      simpa using h
    | succ n =>
      simp only [tableEntriesAux]
      apply List.mem_append_right
      have e : r0 + (n + 1) = (r0 + 1) + n := by omega
      rw [e]
      exact ih (r0 + 1) n c (Nat.lt_of_succ_lt_succ hr) hc

theorem string_mk_data (s : String) : String.mk s.data = s := rfl

theorem contains_to_mem {l : List Char} {c : Char} (h : l.contains c = true) : c ∈ l := by
  simpa using h

theorem contains_to_not_mem {l : List Char} {c : Char} (h : l.contains c = false) : ¬ c ∈ l := by
  simpa using h

theorem scanEvalF_no_match (katex : String → String) (me : String → Except String String) :
    ∀ (fuel : Nat) (l : List Char) (cache : List (String × String)),
    hasPlaceholder l = false → scanEvalF katex me fuel l cache = ⟨l, cache, 0, 0⟩ := by
  intro fuel
  induction fuel with
  | zero => intro l cache _; rfl
  | succ n ih =>
    intro l cache h
    cases l with
    | nil => rfl
    | cons c rest =>
      by_cases hc : c = '{'
      · subst hc
        cases hs : splitAtBrace rest with
        | none => simp [scanEvalF, hs]
        | some p =>
          obtain ⟨inner, rest'⟩ := p
          by_cases hi : inner.isEmpty
          · have hrest : hasPlaceholder rest = false := by
              simpa [hasPlaceholder, hs, hi] using h
            simp [scanEvalF, hs, hi, ih rest cache hrest]
          · exfalso
            simp [hasPlaceholder, hs, hi] at h
      · have hrest : hasPlaceholder rest = false := by
          simpa [hasPlaceholder, hc] using h
        simp [scanEvalF, hc, ih rest cache hrest]

/-! ### Claim theorems -/

/-- C1: the Table Indexer assigns each cell of every table the coordinate
`letter(C) + (R+1)` (`cellRef R C`) keyed to its trimmed content,
independently of the cells' contents; in particular a 2-row, 3-column table
is indexed as A1,B1,C1 / A2,B2,C2 for arbitrary contents. -/
theorem c1_cell_coordinates (rows : List (List String)) (r c : Nat)
    (hr : r < rows.length) (hc : c < (rows.get ⟨r, hr⟩).length)
    (w x y z u v : String) :
    (cellRef r c, jsTrim ((rows.get ⟨r, hr⟩).get ⟨c, hc⟩)) ∈ tableEntries rows
    ∧ indexTable [[w, x, y], [z, u, v]] "A1" = some (jsTrim w)
    ∧ indexTable [[w, x, y], [z, u, v]] "B1" = some (jsTrim x)
    ∧ indexTable [[w, x, y], [z, u, v]] "C1" = some (jsTrim y)
    ∧ indexTable [[w, x, y], [z, u, v]] "A2" = some (jsTrim z)
    ∧ indexTable [[w, x, y], [z, u, v]] "B2" = some (jsTrim u)
    ∧ indexTable [[w, x, y], [z, u, v]] "C2" = some (jsTrim v) := by
  refine ⟨?_, rfl, rfl, rfl, rfl, rfl, rfl⟩
  have h := mem_tableEntriesAux rows 0 r c hr hc
  simpa [tableEntries] using h

theorem c1_cell_coordinates_check :
    (1 < ([["p", "q"], ["s"]] : List (List String)).length)
    ∧ (cellRef 1 0, jsTrim "s") ∈ tableEntries [["p", "q"], ["s"]]
    ∧ indexTable [["a", "b", "c"], ["d", "e", "f"]] "B2" = some (jsTrim "e") := by
  have h := c1_cell_coordinates [["p", "q"], ["s"]] 1 0 (by decide) (by decide)
    "a" "b" "c" "d" "e" "f"
  exact ⟨by decide, h.1, h.2.2.2.2.2.1⟩

/-- C8: a placeholder delimited by `$$...$$` is classified as LaTeX with
priority over the table and plain-arithmetic cases — regardless of the rest
of its text, on a cache miss the output is exactly the (total, hence
never-raising, error-tolerant) KaTeX rendering of the delimiter-stripped and
trimmed text, the mathjs evaluator is not invoked, and the rendering is
stored in the cache. -/
theorem c8_latex_branch (katex : String → String) (me : String → Except String String)
    (cache : List (String × String)) (e : String)
    (hmiss : jsGet cache e = none)
    (h1 : jsStartsWith e "$$" = true) (h2 : jsEndsWith e "$$" = true) :
    evaluateOne katex me cache e =
      ⟨katex (stripDollars e), jsSet cache e (katex (stripDollars e)), 1, 0⟩ := by
  simp [evaluateOne, hmiss, isLatexExpr, h1, h2]

theorem c8_latex_branch_check :
    jsGet ([] : List (String × String)) "$$x^2 table$$" = none
    ∧ jsStartsWith "$$x^2 table$$" "$$" = true
    ∧ evaluateOne (fun s => "K:" ++ s) (fun _ => Except.error "mathjs is not called")
        [] "$$x^2 table$$" =
      ⟨"K:x^2 table", [("$$x^2 table$$", "K:x^2 table")], 1, 0⟩ :=
  ⟨rfl, rfl,
    c8_latex_branch (fun s => "K:" ++ s) (fun _ => Except.error "mathjs is not called")
      [] "$$x^2 table$$" rfl rfl rfl⟩

theorem getRange_found (α : Type) (parseNum : String → Option α)
    (tableData : List (String × (String → Option String)))
    (tableName startCell endCell : String)
    (table : String → Option String) (sc ec sr er : Int)
    (ht : jsGet tableData tableName = some table)
    (h1 : charCodeAt0 startCell = some sc) (h2 : charCodeAt0 endCell = some ec)
    (h3 : jsParseInt (jsDrop1 startCell) = some sr)
    (h4 : jsParseInt (jsDrop1 endCell) = some er) :
    getRange parseNum tableData tableName startCell endCell =
      Except.ok (collectCols parseNum table (intRange (sr - 1) (er - 1))
        (intRange (sc - 65) (ec - 65))) := by
  simp [getRange, ht, h1, h2, h3, h4]

theorem collectRows_eq_filterMap (α : Type) (parseNum : String → Option α)
    (table : String → Option String) (col : Int) (rows : List Int) :
    collectRows parseNum table col rows =
      rows.filterMap (fun row => (table (intCellRef col row)).bind parseNum) := by
  induction rows with
  | nil => rfl
  | cons row rs ih =>
    simp only [collectRows, List.filterMap_cons]
    cases h : (table (intCellRef col row)).bind parseNum <;> simp [h, ih]

theorem collectCols_eq_bind (α : Type) (parseNum : String → Option α)
    (table : String → Option String) (rows : List Int) (cols : List Int) :
    collectCols parseNum table rows cols =
      cols.flatMap (fun col =>
        rows.filterMap (fun row => (table (intCellRef col row)).bind parseNum)) := by
  induction cols with
  | nil => rfl
  | cons col cs ih =>
    simp only [collectCols, collectRows_eq_filterMap, ih]
    rfl

/-- C2: for every table present in the Table Index and every pair of parsed
boundary coordinates, `getRange` returns the rectangle's cells in
column-major order (outer loop over columns, inner loop over rows), keeping
exactly the defined cells whose text parses as a number; on `table1` with
A1=1, A2=2, B1=3, B2=4 the range A1:B2 yields the sequence [1,2,3,4], and
non-numeric or missing cells are silently skipped. -/
theorem c2_range_column_major (α : Type) (parseNum : String → Option α) (n1 n2 n3 n4 : α)
    (h1 : parseNum "1" = some n1) (h2 : parseNum "2" = some n2)
    (h3 : parseNum "3" = some n3) (h4 : parseNum "4" = some n4)
    (hx : parseNum "x" = none) :
    (∀ (tableData : List (String × (String → Option String)))
      (tableName startCell endCell : String)
      (table : String → Option String) (sc ec sr er : Int),
      jsGet tableData tableName = some table →
      charCodeAt0 startCell = some sc → charCodeAt0 endCell = some ec →
      jsParseInt (jsDrop1 startCell) = some sr → jsParseInt (jsDrop1 endCell) = some er →
      getRange parseNum tableData tableName startCell endCell =
        Except.ok ((intRange (sc - 65) (ec - 65)).flatMap (fun col =>
          (intRange (sr - 1) (er - 1)).filterMap (fun row =>
            (table (intCellRef col row)).bind parseNum))))
    ∧ getRange parseNum [("table1", indexTable [["1", "3"], ["2", "4"]])] "table1" "A1" "B2"
        = Except.ok [n1, n2, n3, n4]
    ∧ getRange parseNum [("table1", indexTable [["1", "3"], ["x"]])] "table1" "A1" "B2"
        = Except.ok [n1, n3] := by
  refine ⟨?_, ?_, ?_⟩
  · intro tableData tableName startCell endCell table sc ec sr er ht hc1 hc2 hp1 hp2
    rw [getRange_found α parseNum tableData tableName startCell endCell table sc ec sr er
      ht hc1 hc2 hp1 hp2, collectCols_eq_bind]
  · rw [getRange_found α parseNum [("table1", indexTable [["1", "3"], ["2", "4"]])]
      "table1" "A1" "B2" (indexTable [["1", "3"], ["2", "4"]]) 65 66 1 2 rfl rfl rfl rfl rfl]
    show Except.ok (collectCols parseNum (indexTable [["1", "3"], ["2", "4"]]) [0, 1] [0, 1]) = _
    simp [collectCols, collectRows, h1, h2, h3, h4,
      show indexTable [["1", "3"], ["2", "4"]] (intCellRef 0 0) = some "1" from rfl,
      show indexTable [["1", "3"], ["2", "4"]] (intCellRef 0 1) = some "2" from rfl,
      show indexTable [["1", "3"], ["2", "4"]] (intCellRef 1 0) = some "3" from rfl,
      show indexTable [["1", "3"], ["2", "4"]] (intCellRef 1 1) = some "4" from rfl]
  · rw [getRange_found α parseNum [("table1", indexTable [["1", "3"], ["x"]])]
      "table1" "A1" "B2" (indexTable [["1", "3"], ["x"]]) 65 66 1 2 rfl rfl rfl rfl rfl]
    show Except.ok (collectCols parseNum (indexTable [["1", "3"], ["x"]]) [0, 1] [0, 1]) = _
    simp [collectCols, collectRows, h1, h3, hx,
      show indexTable [["1", "3"], ["x"]] (intCellRef 0 0) = some "1" from rfl,
      show indexTable [["1", "3"], ["x"]] (intCellRef 0 1) = some "x" from rfl,
      show indexTable [["1", "3"], ["x"]] (intCellRef 1 0) = some "3" from rfl,
      show indexTable [["1", "3"], ["x"]] (intCellRef 1 1) = none from rfl]

theorem c2_range_column_major_check :
    natParse "1" = some 1 ∧ natParse "x" = none
    ∧ getRange natParse [("table1", indexTable [["1", "3"], ["2", "4"]])]
        "table1" "A1" "B2" = Except.ok [1, 2, 3, 4]
    ∧ getRange natParse [("table1", indexTable [["1", "3"], ["x"]])]
        "table1" "A1" "B2" = Except.ok [1, 3] := by
  have h := c2_range_column_major Nat natParse 1 2 3 4 rfl rfl rfl rfl rfl
  exact ⟨rfl, rfl, h.2.1, h.2.2⟩

/-- C3 counterexample: for the placeholder text "x" (no cache entry, plain
arithmetic) whose evaluation fails, evaluating the byte-identical text twice
invokes the underlying mathjs evaluator twice, and the error-marker
rendering is never stored in the cache — refuting the claim that the
resulting rendering, "whether a success or an error marker", is stored
before returning, and with it the claim that byte-identical text is
evaluated only once. -/
theorem c3_cache_counterexample :
    (evalList (fun s => s) (fun _ => Except.error "oops") [] ["x", "x"]).mathCalls = 2
    ∧ (evalList (fun s => s) (fun _ => Except.error "oops") [] ["x", "x"]).outputs
        = [errSpan "x", errSpan "x"]
    ∧ (evalList (fun s => s) (fun _ => Except.error "oops") [] ["x", "x"]).cache = [] :=
  ⟨rfl, rfl, rfl⟩

/-- C3 (amended): the evaluator first looks up the placeholder's exact
source text in the cache and on a hit returns the stored rendering with no
evaluator invocation; on a miss it invokes the underlying evaluator exactly
once and, when that evaluation succeeds, stores the rendering before
returning it, so that the byte-identical placeholder text evaluates through
the underlying evaluator only once (and any single-character change of the
text is a fresh key, forcing evaluation); an error-marker rendering,
however, is returned without being stored, so a failing placeholder
re-invokes the evaluator on every occurrence. -/
theorem c3_cache_behavior (katex : String → String) (me : String → Except String String)
    (cache : List (String × String)) (e r msg : String) :
    (∀ v, jsGet cache e = some v → evaluateOne katex me cache e = ⟨v, cache, 0, 0⟩)
    ∧ (jsGet cache e = none →
        (evalCalls e).1 + (evalCalls e).2 = 1
        ∧ (tryResult katex me e = Except.ok r →
            evaluateOne katex me cache e = ⟨r, jsSet cache e r, (evalCalls e).1, (evalCalls e).2⟩
            ∧ evaluateOne katex me (jsSet cache e r) e = ⟨r, jsSet cache e r, 0, 0⟩)
        ∧ (tryResult katex me e = Except.error msg →
            evaluateOne katex me cache e =
              ⟨errSpan e, cache, (evalCalls e).1, (evalCalls e).2⟩)) := by
  constructor
  · intro v hv
    simp [evaluateOne, hv]
  · intro h0
    refine ⟨?_, ?_, ?_⟩
    · unfold evalCalls
      split <;> rfl
    · intro hok
      have hsecond : evaluateOne katex me (jsSet cache e r) e = ⟨r, jsSet cache e r, 0, 0⟩ := by
        simp [evaluateOne, jsGet_jsSet_self]
      cases hl : isLatexExpr e with
      | true =>
        have hr : katex (stripDollars e) = r := by
          simpa [tryResult, hl] using hok
        exact ⟨by simp [evaluateOne, h0, hl, hr, evalCalls], hsecond⟩
      | false =>
        cases ht : includesTable e with
        | true =>
          have hr : me (processTableExpression e) = Except.ok r := by
            simpa [tryResult, hl, ht] using hok
          exact ⟨by simp [evaluateOne, h0, hl, ht, hr, evalCalls], hsecond⟩
        | false =>
          have hr : me e = Except.ok r := by
            simpa [tryResult, hl, ht] using hok
          exact ⟨by simp [evaluateOne, h0, hl, ht, hr, evalCalls], hsecond⟩
    · intro herr
      cases hl : isLatexExpr e with
      | true => simp [tryResult, hl] at herr
      | false =>
        cases ht : includesTable e with
        | true =>
          have hr : me (processTableExpression e) = Except.error msg := by
            simpa [tryResult, hl, ht] using herr
          simp [evaluateOne, h0, hl, ht, hr, evalCalls]
        | false =>
          have hr : me e = Except.error msg := by
            simpa [tryResult, hl, ht] using herr
          simp [evaluateOne, h0, hl, ht, hr, evalCalls]

theorem c3_cache_behavior_check :
    jsGet ([] : List (String × String)) "2+2" = none
    ∧ tryResult (fun s => s) (fun _ => Except.ok "4") "2+2" = Except.ok "4"
    ∧ evaluateOne (fun s => s) (fun _ => Except.ok "4") [] "2+2"
        = ⟨"4", [("2+2", "4")], 0, 1⟩
    ∧ evaluateOne (fun s => s) (fun _ => Except.ok "4") [("2+2", "4")] "2+2"
        = ⟨"4", [("2+2", "4")], 0, 0⟩ := by
  have h := (c3_cache_behavior (fun s => s) (fun _ => Except.ok "4") [] "2+2" "4" "unused").2
    rfl
  exact ⟨rfl, rfl, (h.2.1 rfl).1, (h.2.1 rfl).2⟩

/-- C9: the cache key is the placeholder's literal source text only, so a
cached table-range rendering is returned regardless of the current Table
Index: on a hit the output and call counts are identical for any two mathjs
pipelines (i.e. any two table-data environments), and once a
table-referencing placeholder has been successfully evaluated and cached,
re-evaluating the byte-identical text against an arbitrarily different
table environment returns the stored rendering without invoking any
evaluator — rendered table-range results do not reflect later edits to the
referenced cells. -/
theorem c9_stale_cache (katex : String → String) (me me' : String → Except String String)
    (cache : List (String × String)) (e r : String) :
    (∀ v, jsGet cache e = some v →
      evaluateOne katex me cache e = ⟨v, cache, 0, 0⟩
      ∧ evaluateOne katex me' cache e = ⟨v, cache, 0, 0⟩)
    ∧ (jsGet cache e = none → isLatexExpr e = false → includesTable e = true →
        me (processTableExpression e) = Except.ok r →
        evaluateOne katex me' (evaluateOne katex me cache e).cache e =
          ⟨r, (evaluateOne katex me cache e).cache, 0, 0⟩) := by
  constructor
  · intro v hv
    exact ⟨by simp [evaluateOne, hv], by simp [evaluateOne, hv]⟩
  · intro h0 hl ht hok
    have h1 : evaluateOne katex me cache e = ⟨r, jsSet cache e r, 0, 1⟩ := by
      simp [evaluateOne, h0, hl, ht, hok]
    rw [h1]
    simp [evaluateOne, jsGet_jsSet_self]

theorem c9_stale_cache_check :
    jsGet ([] : List (String × String)) "sum(table1[A1:B2])" = none
    ∧ includesTable "sum(table1[A1:B2])" = true
    ∧ evaluateOne (fun s => s) (fun _ => Except.ok "99")
        (evaluateOne (fun s => s) (fun _ => Except.ok "10") [] "sum(table1[A1:B2])").cache
        "sum(table1[A1:B2])"
        = ⟨"10", (evaluateOne (fun s => s) (fun _ => Except.ok "10") []
            "sum(table1[A1:B2])").cache, 0, 0⟩ :=
  ⟨rfl, rfl,
    (c9_stale_cache (fun s => s) (fun _ => Except.ok "10") (fun _ => Except.ok "99")
      [] "sum(table1[A1:B2])" "10").2 rfl rfl rfl rfl⟩

/-- C4: a table-range reference naming a table absent from the Table Index
makes `getRange` fail with the thrown "not found" error; that failure is
caught locally by the placeholder's evaluator, whose rendered output becomes
the inline error span (no exception escapes — the functions are total), the
cache is left untouched, and the evaluation of every other placeholder in
the document proceeds exactly as it would without the failing one. -/
theorem c4_missing_table (α : Type) (parseNum : String → Option α)
    (tableData : List (String × (String → Option String)))
    (tableName startCell endCell : String)
    (katex : String → String) (me : String → Except String String)
    (cache : List (String × String)) (e msg : String) (rest : List String) :
    (jsGet tableData tableName = none →
      getRange parseNum tableData tableName startCell endCell =
        Except.error ("Table \"" ++ tableName ++ "\" not found."))
    ∧ (jsGet cache e = none → isLatexExpr e = false → includesTable e = true →
        me (processTableExpression e) = Except.error msg →
        evaluateOne katex me cache e = ⟨errSpan e, cache, 0, 1⟩
        ∧ evalList katex me cache (e :: rest) =
            ⟨errSpan e :: (evalList katex me cache rest).outputs,
             (evalList katex me cache rest).cache,
             (evalList katex me cache rest).katexCalls,
             1 + (evalList katex me cache rest).mathCalls⟩) := by
  constructor
  · intro h
    simp [getRange, h]
  · intro h0 h1 h2 h3
    have hev : evaluateOne katex me cache e = ⟨errSpan e, cache, 0, 1⟩ := by
      simp [evaluateOne, h0, h1, h2, h3]
    refine ⟨hev, ?_⟩
    simp [evalList, hev]

theorem c4_missing_table_check :
    jsGet [("table1", indexTable [["1"]])] "table9" = none
    ∧ getRange (fun s => s.toNat?) [("table1", indexTable [["1"]])] "table9" "A1" "B2"
        = Except.error "Table \"table9\" not found."
    ∧ (evalList (fun s => s)
        (fun s => if s = "2+2" then Except.ok "4" else Except.error "Table \"table9\" not found.")
        [] ["table9[A1:B2]", "2+2"]).outputs
        = [errSpan "table9[A1:B2]", "4"] := by
  have h := c4_missing_table Nat (fun s => s.toNat?) [("table1", indexTable [["1"]])]
    "table9" "A1" "B2" (fun s => s)
    (fun s => if s = "2+2" then Except.ok "4" else Except.error "Table \"table9\" not found.")
    [] "table9[A1:B2]" "Table \"table9\" not found." ["2+2"]
  refine ⟨rfl, h.1 rfl, ?_⟩
  have h2 := (h.2 rfl rfl rfl (by rfl)).2
  rw [h2]
  rfl

/-- C10: on an existing table, a range whose end column precedes its start
column or whose end row precedes its start row yields the empty sequence:
the loop bounds are not normalized, no cell is collected, and no error is
raised. -/
theorem c10_reversed_range (α : Type) (parseNum : String → Option α)
    (tableData : List (String × (String → Option String)))
    (tableName startCell endCell : String)
    (table : String → Option String) (sc ec sr er : Int)
    (ht : jsGet tableData tableName = some table)
    (h1 : charCodeAt0 startCell = some sc) (h2 : charCodeAt0 endCell = some ec)
    (h3 : jsParseInt (jsDrop1 startCell) = some sr)
    (h4 : jsParseInt (jsDrop1 endCell) = some er)
    (hrev : ec < sc ∨ er < sr) :
    getRange parseNum tableData tableName startCell endCell = Except.ok [] := by
  have hmain : getRange parseNum tableData tableName startCell endCell =
      Except.ok (collectCols parseNum table (intRange (sr - 1) (er - 1))
        (intRange (sc - 65) (ec - 65))) := by
    simp [getRange, ht, h1, h2, h3, h4]
  rw [hmain]
  rcases hrev with h | h
  · rw [intRange_nil (sc - 65) (ec - 65) (by omega)]
    rfl
  · rw [intRange_nil (sr - 1) (er - 1) (by omega), collectCols_rows_nil]

theorem c10_reversed_range_check :
    jsGet [("table1", indexTable [["1", "3"], ["2", "4"]])] "table1"
      = some (indexTable [["1", "3"], ["2", "4"]])
    ∧ charCodeAt0 "B2" = some 66
    ∧ getRange (fun s => s.toNat?) [("table1", indexTable [["1", "3"], ["2", "4"]])]
        "table1" "B2" "A1" = Except.ok [] :=
  ⟨rfl, rfl,
    c10_reversed_range Nat (fun s => s.toNat?)
      [("table1", indexTable [["1", "3"], ["2", "4"]])] "table1" "B2" "A1"
      (indexTable [["1", "3"], ["2", "4"]]) 66 65 2 1 rfl rfl rfl rfl rfl
      (Or.inl (by omega))⟩

/-- C5: refresh is idempotent — a cycle on an already-evaluated snapshot
with no source edits (snapshot equal to the last-applied one) leaves the
editor state unchanged and performs no content replacement; and whenever
the computed candidate is textually identical to the last-applied snapshot,
the cycle performs no content replacement and leaves the document content
unchanged. -/
theorem c5_refresh_idempotent (parseDoc : String → List (List (List String)))
    (katex : String → String)
    (mkMe : List (String × (String → Option String)) → String → Except String String)
    (prev : String) (cache : List (String × String)) (st : EditorState) :
    (st.content = prev →
      (updateContent parseDoc katex mkMe prev cache st).state = st
      ∧ (updateContent parseDoc katex mkMe prev cache st).replaced = false)
    ∧ ((updateContent parseDoc katex mkMe prev cache st).candidate = some prev →
      (updateContent parseDoc katex mkMe prev cache st).replaced = false
      ∧ (updateContent parseDoc katex mkMe prev cache st).state.content = st.content) := by
  constructor
  · intro h
    cases hb : st.content.data.contains '}' with
    | true =>
      have hb' := contains_to_mem hb
      exact ⟨by simp [updateContent, hb', h], by simp [updateContent, hb', h]⟩
    | false =>
      have hb' := contains_to_not_mem hb
      exact ⟨by simp [updateContent, hb'], by simp [updateContent, hb']⟩
  · intro hcand
    cases hb : st.content.data.contains '}' with
    | false =>
      have hb' := contains_to_not_mem hb
      simp [updateContent, hb'] at hcand
    | true =>
      have hb' := contains_to_mem hb
      by_cases he : st.content = prev
      · simp [updateContent, hb', he] at hcand
      · by_cases hn : String.mk (evaluateTableExpressions katex
            (mkMe (parseTables (parseDoc st.content))) st.content cache).out = prev
        · exact ⟨by simp [updateContent, hb', he, hn], by simp [updateContent, hb', he, hn]⟩
        · exfalso
          simp [updateContent, hb', he, hn] at hcand

theorem c5_refresh_idempotent_check :
    ((updateContent (fun _ => []) (fun s => s) (fun _ _ => Except.ok "2") "x" []
        ⟨"x", 4, 7⟩).replaced = false)
    ∧ ((updateContent (fun _ => []) (fun s => s) (fun _ _ => Except.ok "2") "2" []
        ⟨"\x7b1+1\x7d", 0, 0⟩).candidate = some "2")
    ∧ ((updateContent (fun _ => []) (fun s => s) (fun _ _ => Except.ok "2") "2" []
        ⟨"\x7b1+1\x7d", 0, 0⟩).replaced = false)
    ∧ ((updateContent (fun _ => []) (fun s => s) (fun _ _ => Except.ok "2") "2" []
        ⟨"\x7b1+1\x7d", 0, 0⟩).state.content = "\x7b1+1\x7d") := by
  have h1 := (c5_refresh_idempotent (fun _ => []) (fun s => s) (fun _ _ => Except.ok "2")
    "x" [] ⟨"x", 4, 7⟩).1 rfl
  have h2 := (c5_refresh_idempotent (fun _ => []) (fun s => s) (fun _ _ => Except.ok "2")
    "2" [] ⟨"\x7b1+1\x7d", 0, 0⟩).2 (by decide)
  exact ⟨h1.2, by decide, h2.1, h2.2⟩

/-- C6: a snapshot with no closing brace makes the refresh cycle skip table
indexing, scanning and evaluation entirely — no replacement call, no
selection call, no candidate, cache untouched, state unchanged; and for any
snapshot with no placeholder match at all (in particular any document with
no brace pairs) the cycle leaves the document content unchanged. -/
theorem c6_no_brace_no_op (parseDoc : String → List (List (List String)))
    (katex : String → String)
    (mkMe : List (String × (String → Option String)) → String → Except String String)
    (prev : String) (cache : List (String × String)) (st : EditorState) :
    (st.content.data.contains '}' = false →
      updateContent parseDoc katex mkMe prev cache st = ⟨st, prev, cache, false, false, none⟩)
    ∧ (hasPlaceholder st.content.data = false →
      (updateContent parseDoc katex mkMe prev cache st).state.content = st.content) := by
  constructor
  · intro h
    have hb' := contains_to_not_mem h
    simp [updateContent, hb']
  · intro h
    cases hb : st.content.data.contains '}' with
    | false =>
      have hb' := contains_to_not_mem hb
      simp [updateContent, hb']
    | true =>
      have hb' := contains_to_mem hb
      by_cases he : st.content = prev
      · simp [updateContent, hb', he]
      · have hs : evaluateTableExpressions katex (mkMe (parseTables (parseDoc st.content)))
            st.content cache = ⟨st.content.data, cache, 0, 0⟩ :=
          scanEvalF_no_match katex (mkMe (parseTables (parseDoc st.content)))
            st.content.data.length st.content.data cache h
        by_cases hn : String.mk (evaluateTableExpressions katex
            (mkMe (parseTables (parseDoc st.content))) st.content cache).out = prev
        · simp [updateContent, hb', he, hn]
        · simp [updateContent, hb', he, hn, hs, string_mk_data]

theorem c6_no_brace_no_op_check :
    (("hello" : String).data.contains '}' = false)
    ∧ (updateContent (fun _ => []) (fun s => s) (fun _ _ => Except.ok "2") "prev" []
        ⟨"hello", 2, 3⟩ = ⟨⟨"hello", 2, 3⟩, "prev", [], false, false, none⟩)
    ∧ (hasPlaceholder ("a\x7db\x7b" : String).data = false)
    ∧ ((updateContent (fun _ => []) (fun s => s) (fun _ _ => Except.ok "2") "" []
        ⟨"a\x7db\x7b", 0, 0⟩).state.content = "a\x7db\x7b") := by
  have h1 := (c6_no_brace_no_op (fun _ => []) (fun s => s) (fun _ _ => Except.ok "2")
    "prev" [] ⟨"hello", 2, 3⟩).1 (by decide)
  have h2 := (c6_no_brace_no_op (fun _ => []) (fun s => s) (fun _ _ => Except.ok "2")
    "" [] ⟨"a\x7db\x7b", 0, 0⟩).2 (by decide)
  exact ⟨by decide, h1, by decide, h2⟩

/-- C7: every cycle that replaces the document content captures the
selection offsets before the rewrite and restores a selection with exactly
the same raw (from, to) values afterwards (no remapping), whatever the
rewritten content — in particular even when the rewrite changes the total
document length. -/
theorem c7_selection_preserved (parseDoc : String → List (List (List String)))
    (katex : String → String)
    (mkMe : List (String × (String → Option String)) → String → Except String String)
    (prev : String) (cache : List (String × String)) (st : EditorState) :
    (updateContent parseDoc katex mkMe prev cache st).replaced = true →
    (updateContent parseDoc katex mkMe prev cache st).state.selFrom = st.selFrom
    ∧ (updateContent parseDoc katex mkMe prev cache st).state.selTo = st.selTo
    ∧ (updateContent parseDoc katex mkMe prev cache st).selectionRestored = true := by
  intro h
  cases hb : st.content.data.contains '}' with
  | false =>
    have hb' := contains_to_not_mem hb
    simp [updateContent, hb'] at h
  | true =>
    have hb' := contains_to_mem hb
    by_cases he : st.content = prev
    · simp [updateContent, hb', he] at h
    · by_cases hn : String.mk (evaluateTableExpressions katex
          (mkMe (parseTables (parseDoc st.content))) st.content cache).out = prev
      · simp [updateContent, hb', he, hn] at h
      · exact ⟨by simp [updateContent, hb', he, hn], by simp [updateContent, hb', he, hn],
          by simp [updateContent, hb', he, hn]⟩

theorem c7_selection_preserved_check :
    ((updateContent (fun _ => []) (fun s => s) (fun _ _ => Except.ok "2") "" []
        ⟨"\x7b1+1\x7d", 5, 5⟩).replaced = true)
    ∧ ((updateContent (fun _ => []) (fun s => s) (fun _ _ => Except.ok "2") "" []
        ⟨"\x7b1+1\x7d", 5, 5⟩).state.content = "2")
    ∧ ((updateContent (fun _ => []) (fun s => s) (fun _ _ => Except.ok "2") "" []
        ⟨"\x7b1+1\x7d", 5, 5⟩).state.selFrom = 5)
    ∧ ((updateContent (fun _ => []) (fun s => s) (fun _ _ => Except.ok "2") "" []
        ⟨"\x7b1+1\x7d", 5, 5⟩).state.selTo = 5)
    ∧ ((updateContent (fun _ => []) (fun s => s) (fun _ _ => Except.ok "2") "" []
        ⟨"\x7b1+1\x7d", 5, 5⟩).selectionRestored = true) := by
  have h := c7_selection_preserved (fun _ => []) (fun s => s) (fun _ _ => Except.ok "2")
    "" [] ⟨"\x7b1+1\x7d", 5, 5⟩ (by decide)
  exact ⟨by decide, by decide, h.1, h.2.1, h.2.2⟩

end Codex
